import Mathlib

/-!
Verification of the procedural-terrain demo's core algorithms: fractal-Brownian-motion
heightmap synthesis, normal-map derivation, the sun-animation state machine, and the
bloom ping-pong blur loop. Numeric code is embedded over the rationals (with the
external noise primitive and the transcendental library functions as explicit
parameters), list-building loops as `List` constructions.
-/

namespace TerrainDemo

/-! ## Heightmap synthesis (`FBM`, `GenerateHeightMap`)

`FBM` mirrors the source loop

    for (int i = 0; i < octaves; ++i) {
      total += SimplexNoise::noise(x * frequency, y * frequency) * amplitude;
      maxValue += amplitude;
      amplitude *= persistence;
      frequency *= lacunarity;
    }
    float fbmValue = total / maxValue;
    return (fbmValue + 1.0f) * 0.5f;

with the Simplex noise primitive abstracted as a function parameter. `fbmLoop`
returns the pair `(total, maxValue)` accumulated from the current
`(amplitude, frequency)` over the remaining iterations. -/

def fbmLoop (noise : ℚ → ℚ → ℚ) (x y lacunarity persistence : ℚ) :
    ℕ → ℚ → ℚ → ℚ × ℚ
  | 0, _, _ => (0, 0)
  | n + 1, amplitude, frequency =>
      let rest := fbmLoop noise x y lacunarity persistence n
        (amplitude * persistence) (frequency * lacunarity)
      (noise (x * frequency) (y * frequency) * amplitude + rest.1, amplitude + rest.2)

def FBM (noise : ℚ → ℚ → ℚ) (x y : ℚ) (octaves : ℕ) (lacunarity persistence : ℚ) : ℚ :=
  let acc := fbmLoop noise x y lacunarity persistence octaves 1 1
  (acc.1 / acc.2 + 1) * (1 / 2)

/-- One heightmap texel: the source computes
`heightMap[(y*ts)+x] = static_cast<unsigned char>(FBM(x*scale, y*scale, ...) * 255)`;
the FBM value is nonnegative, so the unsigned-char cast is `⌊v * 255⌋`. -/
def heightMapByte (noise : ℚ → ℚ → ℚ) (scale : ℚ) (octaves : ℕ)
    (persistence lacunarity : ℚ) (x y : ℕ) : ℕ :=
  (⌊FBM noise (x * scale) (y * scale) octaves lacunarity persistence * 255⌋).toNat

/-- `GenerateHeightMap` fills a flat row-major `textureSize * textureSize` vector,
outer loop over `y`, inner loop over `x`, writing index `(y * textureSize) + x`. -/
def GenerateHeightMap (noise : ℚ → ℚ → ℚ) (textureSize : ℕ) (scale : ℚ)
    (octaves : ℕ) (persistence lacunarity : ℚ) : List ℕ :=
  ((List.range textureSize).map (fun y =>
    (List.range textureSize).map (fun x =>
      heightMapByte noise scale octaves persistence lacunarity x y))).flatten

/-! ### Row-major indexing helpers -/

theorem flatten_length_of_uniform {α : Type} (L : List (List α)) (w : ℕ)
    (h : ∀ r ∈ L, r.length = w) : L.flatten.length = L.length * w := by
  induction L with
  | nil => simp
  | cons r rest ih =>
      simp only [List.flatten_cons, List.length_append, List.length_cons]
      rw [h r (List.mem_cons_self r rest), ih (fun r hr => h r (List.mem_cons_of_mem _ hr))]
      ring

theorem flatten_getElem_of_uniform {α : Type} (L : List (List α)) (w : ℕ)
    (h : ∀ r ∈ L, r.length = w) (x y : ℕ) (hx : x < w) (hy : y < L.length) :
    L.flatten[y * w + x]? = L[y]?.bind (fun r => r[x]?) := by
  induction L generalizing y with
  | nil => simp at hy
  | cons r rest ih =>
      cases y with
      | zero =>
          have hr : r.length = w := h r (List.mem_cons_self r rest)
          simp only [List.flatten_cons, Nat.zero_mul, Nat.zero_add]
          rw [List.getElem?_append_left (by omega)]
          simp
      | succ y =>
          have hr : r.length = w := h r (List.mem_cons_self r rest)
          have hidx : (y + 1) * w + x = r.length + (y * w + x) := by
            rw [hr]; ring
          simp only [List.flatten_cons]
          rw [hidx, List.getElem?_append_right (by omega)]
          simp only [Nat.add_sub_cancel_left]
          rw [ih (fun r hr => h r (List.mem_cons_of_mem _ hr)) y (by simpa using hy)]
          simp

/-- C1: for every `textureSize ≥ 1` and `octaves ≥ 1`, `GenerateHeightMap` returns a
row-major `textureSize × textureSize` grid whose cell `(x, y)` equals the direct
recomputation `⌊FBM(x·scale, y·scale, octaves, lacunarity, persistence) · 255⌋`
with the same pure noise primitive, where `FBM` accumulates
`noise(x·scale·freq, y·scale·freq)·amplitude` over `octaves` iterations
(`freq *= lacunarity`, `amplitude *= persistence` each iteration), divides by the
sum of amplitudes and remaps via `(v+1)/2`. -/
theorem heightMap_matches_fbm_recompute (noise : ℚ → ℚ → ℚ) (textureSize : ℕ)
    (scale : ℚ) (octaves : ℕ) (persistence lacunarity : ℚ)
    (hts : 1 ≤ textureSize) (hoct : 1 ≤ octaves) :
    (GenerateHeightMap noise textureSize scale octaves persistence lacunarity).length =
      textureSize * textureSize ∧
    ∀ x y : ℕ, x < textureSize → y < textureSize →
      (GenerateHeightMap noise textureSize scale octaves persistence lacunarity)[y * textureSize + x]? =
        some ((⌊FBM noise (x * scale) (y * scale) octaves lacunarity persistence * 255⌋).toNat) := by
  have hrows : ∀ r ∈ (List.range textureSize).map (fun y =>
      (List.range textureSize).map (fun x =>
        heightMapByte noise scale octaves persistence lacunarity x y)),
      r.length = textureSize := by
    intro r hr
    rcases List.mem_map.mp hr with ⟨y, _, rfl⟩
    simp
  constructor
  · rw [GenerateHeightMap, flatten_length_of_uniform _ textureSize hrows]
    simp
  · intro x y hx hy
    rw [GenerateHeightMap, flatten_getElem_of_uniform _ textureSize hrows x y hx (by simpa using hy)]
    rw [List.getElem?_map, List.getElem?_range hy]
    simp [List.getElem?_range hx, heightMapByte]

/-- Closed witness for `heightMap_matches_fbm_recompute` at
`textureSize = 2`, `octaves = 1`, zero noise. -/
theorem heightMap_matches_fbm_recompute_witness :
    (1 ≤ 2 ∧ 1 ≤ 1) ∧
    ((GenerateHeightMap (fun _ _ => 0) 2 1 1 (1/2) 2).length = 2 * 2 ∧
    ∀ x y : ℕ, x < 2 → y < 2 →
      (GenerateHeightMap (fun _ _ => 0) 2 1 1 (1/2) 2)[y * 2 + x]? =
        some ((⌊FBM (fun _ _ => 0) (x * 1) (y * 1) 1 2 (1/2) * 255⌋).toNat)) :=
  ⟨⟨by decide, by decide⟩,
    heightMap_matches_fbm_recompute (fun _ _ => 0) 2 1 1 (1/2) 2 (by decide) (by decide)⟩

/-! ### C2: FBM range -/

theorem fbmLoop_total_le_max (noise : ℚ → ℚ → ℚ) (x y lacunarity persistence : ℚ)
    (hper : 0 < persistence) (hn : ∀ a b : ℚ, -1 ≤ noise a b ∧ noise a b ≤ 1) :
    ∀ (n : ℕ) (amplitude frequency : ℚ), 0 < amplitude →
      |(fbmLoop noise x y lacunarity persistence n amplitude frequency).1| ≤
        (fbmLoop noise x y lacunarity persistence n amplitude frequency).2 := by
  intro n
  induction n with
  | zero => intro amplitude frequency _; simp [fbmLoop]
  | succ n ih =>
      intro amplitude frequency hamp
      have hrec := ih (amplitude * persistence) (frequency * lacunarity)
        (mul_pos hamp hper)
      have hnoise := hn (x * frequency) (y * frequency)
      have habs : |noise (x * frequency) (y * frequency)| ≤ 1 :=
        abs_le.mpr ⟨hnoise.1, hnoise.2⟩
      simp only [fbmLoop]
      calc |noise (x * frequency) (y * frequency) * amplitude +
            (fbmLoop noise x y lacunarity persistence n (amplitude * persistence)
              (frequency * lacunarity)).1|
          ≤ |noise (x * frequency) (y * frequency) * amplitude| +
            |(fbmLoop noise x y lacunarity persistence n (amplitude * persistence)
              (frequency * lacunarity)).1| := abs_add _ _
        _ ≤ amplitude + (fbmLoop noise x y lacunarity persistence n
              (amplitude * persistence) (frequency * lacunarity)).2 := by
            have : |noise (x * frequency) (y * frequency) * amplitude| ≤ amplitude := by
              rw [abs_mul, abs_of_pos hamp]
              nlinarith
            linarith

/-- C2: for octaves ≥ 1, positive persistence and lacunarity, and a noise primitive
valued in `[-1, 1]`, the FBM value lies in `[0, 1]`. -/
theorem fbm_output_in_unit_interval (noise : ℚ → ℚ → ℚ) (x y : ℚ) (octaves : ℕ)
    (lacunarity persistence : ℚ) (hoct : 1 ≤ octaves) (hper : 0 < persistence)
    (hlac : 0 < lacunarity) (hn : ∀ a b : ℚ, -1 ≤ noise a b ∧ noise a b ≤ 1) :
    0 ≤ FBM noise x y octaves lacunarity persistence ∧
    FBM noise x y octaves lacunarity persistence ≤ 1 := by
  obtain ⟨n, rfl⟩ : ∃ n, octaves = n + 1 := ⟨octaves - 1, by omega⟩
  have hbound := fbmLoop_total_le_max noise x y lacunarity persistence hper hn (n + 1) 1 1
    one_pos
  set acc := fbmLoop noise x y lacunarity persistence (n + 1) 1 1 with hacc
  have hmaxpos : 0 < acc.2 := by
    have hrest := fbmLoop_total_le_max noise x y lacunarity persistence hper hn n
      (1 * persistence) (1 * lacunarity) (by simpa using hper)
    have : 0 ≤ (fbmLoop noise x y lacunarity persistence n (1 * persistence)
        (1 * lacunarity)).2 := le_trans (abs_nonneg _) hrest
    rw [hacc]
    simp only [fbmLoop]
    linarith
  have hdiv : -1 ≤ acc.1 / acc.2 ∧ acc.1 / acc.2 ≤ 1 := by
    rw [abs_le] at hbound
    constructor
    · rw [neg_le, ← neg_div]
      exact (div_le_one hmaxpos).mpr (by linarith [hbound.1])
    · exact (div_le_one hmaxpos).mpr hbound.2
  rw [FBM]
  constructor
  · simp only [← hacc]
    linarith [hdiv.1]
  · simp only [← hacc]
    linarith [hdiv.2]

/-- Closed witness for `fbm_output_in_unit_interval` with zero noise, one octave. -/
theorem fbm_output_in_unit_interval_witness :
    (1 ≤ 1 ∧ (0 : ℚ) < 1/2 ∧ (0 : ℚ) < 2) ∧
    (0 ≤ FBM (fun _ _ => 0) 0 0 1 2 (1/2) ∧ FBM (fun _ _ => 0) 0 0 1 2 (1/2) ≤ 1) :=
  ⟨⟨by decide, by norm_num, by norm_num⟩,
    fbm_output_in_unit_interval (fun _ _ => 0) 0 0 1 2 (1/2) (by decide) (by norm_num)
      (by norm_num) (fun a b => ⟨by norm_num, by norm_num⟩)⟩

/-! ## Normal map derivation (`GenerateNormalMap`)

The source allocates `std::vector<glm::vec3> normalMap(heightMap.size())`
(value-initialized, so every cell starts at `(0,0,0)`) and overwrites exactly the
interior cells `1 ≤ x ≤ ts-2`, `1 ≤ y ≤ ts-2` at flat index `y*ts + x` with

    dx = h[y*ts+(x-1)]/255 - h[y*ts+(x+1)]/255
    dy = h[(y-1)*ts+x]/255 - h[(y+1)*ts+x]/255
    normalMap[y*ts+x] = normalize(vec3(dx, dy, 1)) * 0.5 + 0.5

Since the flat index `i = y*ts + x` with `x < ts` decomposes uniquely as
`x = i % ts`, `y = i / ts`, the default-then-overwrite loop is embedded as a map
over all flat indices with the interior test as a guard. The `normalize` call is
the only irrational operation of the program, so normal-map texels live in `ℝ`. -/

noncomputable def heightTexel (heightMap : List ℕ) (i : ℕ) : ℝ :=
  (heightMap.getD i 0 : ℕ) / 255

noncomputable def normalize3 (v : ℝ × ℝ × ℝ) : ℝ × ℝ × ℝ :=
  let len := Real.sqrt (v.1 ^ 2 + v.2.1 ^ 2 + v.2.2 ^ 2)
  (v.1 / len, v.2.1 / len, v.2.2 / len)

noncomputable def sqNorm3 (v : ℝ × ℝ × ℝ) : ℝ := v.1 ^ 2 + v.2.1 ^ 2 + v.2.2 ^ 2

noncomputable def remap05 (v : ℝ × ℝ × ℝ) : ℝ × ℝ × ℝ :=
  (v.1 * (1 / 2) + 1 / 2, v.2.1 * (1 / 2) + 1 / 2, v.2.2 * (1 / 2) + 1 / 2)

/-- The central-difference gradient vector `(dx, dy, 1)` at interior point `(x, y)`. -/
noncomputable def gradVec (heightMap : List ℕ) (textureSize x y : ℕ) : ℝ × ℝ × ℝ :=
  (heightTexel heightMap (y * textureSize + (x - 1)) -
     heightTexel heightMap (y * textureSize + (x + 1)),
   heightTexel heightMap ((y - 1) * textureSize + x) -
     heightTexel heightMap ((y + 1) * textureSize + x),
   1)

noncomputable def normalTexel (heightMap : List ℕ) (textureSize x y : ℕ) : ℝ × ℝ × ℝ :=
  remap05 (normalize3 (gradVec heightMap textureSize x y))

noncomputable def GenerateNormalMap (heightMap : List ℕ) (textureSize : ℕ) :
    List (ℝ × ℝ × ℝ) :=
  (List.range heightMap.length).map (fun i =>
    if 1 ≤ i % textureSize ∧ i % textureSize ≤ textureSize - 2 ∧
       1 ≤ i / textureSize ∧ i / textureSize ≤ textureSize - 2 then
      normalTexel heightMap textureSize (i % textureSize) (i / textureSize)
    else (0, 0, 0))

theorem interior_index_lt (textureSize x y : ℕ) (hx1 : 1 ≤ x) (hx2 : x ≤ textureSize - 2)
    (hy2 : y ≤ textureSize - 2) : y * textureSize + x < textureSize * textureSize := by
  have hts : 3 ≤ textureSize := by omega
  have : y * textureSize ≤ (textureSize - 2) * textureSize :=
    Nat.mul_le_mul_right _ hy2
  have : (textureSize - 2) * textureSize + textureSize = (textureSize - 1) * textureSize := by
    have : textureSize - 2 + 1 = textureSize - 1 := by omega
    calc (textureSize - 2) * textureSize + textureSize
        = (textureSize - 2 + 1) * textureSize := by ring
      _ = (textureSize - 1) * textureSize := by rw [‹textureSize - 2 + 1 = textureSize - 1›]
  nlinarith [Nat.mul_le_mul_right textureSize hy2, Nat.sub_lt (by omega : 0 < textureSize)
    (by omega : 0 < 2)]

theorem rowmajor_mod (textureSize x y : ℕ) (hx : x < textureSize) :
    (y * textureSize + x) % textureSize = x := by
  rw [Nat.mul_comm y textureSize, Nat.mul_add_mod, Nat.mod_eq_of_lt hx]

theorem rowmajor_div (textureSize x y : ℕ) (hx : x < textureSize) :
    (y * textureSize + x) / textureSize = y := by
  rw [Nat.mul_comm y textureSize, Nat.mul_add_div (by omega), Nat.div_eq_of_lt hx,
    Nat.add_zero]

/-- The normalized gradient has unit squared norm: the z-component of the
pre-normalization vector is the constant `1`, so the vector is never zero. -/
theorem normalize3_unit (dx dy : ℝ) : sqNorm3 (normalize3 (dx, dy, 1)) = 1 := by
  have hS : (0 : ℝ) < dx ^ 2 + dy ^ 2 + 1 ^ 2 := by positivity
  have hlen : Real.sqrt (dx ^ 2 + dy ^ 2 + 1 ^ 2) ≠ 0 :=
    ne_of_gt (Real.sqrt_pos.mpr hS)
  have hsq : Real.sqrt (dx ^ 2 + dy ^ 2 + 1 ^ 2) ^ 2 = dx ^ 2 + dy ^ 2 + 1 ^ 2 :=
    Real.sq_sqrt (le_of_lt hS)
  simp only [normalize3, sqNorm3]
  rw [div_pow, div_pow, div_pow, hsq]
  field_simp

/-- C6: for every heightmap of size `textureSize²` and every interior point
`(x, y)` with `1 ≤ x, y ≤ textureSize - 2`, `GenerateNormalMap` stores
`normalize(dx, dy, 1) * 0.5 + 0.5` with `dx = h(x-1,y) - h(x+1,y)` and
`dy = h(x,y-1) - h(x,y+1)`, and the stored vector prior to the `[0,1]` remap has
unit (squared) length, regardless of the heightmap's content. -/
theorem normalMap_interior_unit_normals (heightMap : List ℕ) (textureSize x y : ℕ)
    (hlen : heightMap.length = textureSize * textureSize)
    (hx1 : 1 ≤ x) (hx2 : x ≤ textureSize - 2) (hy1 : 1 ≤ y) (hy2 : y ≤ textureSize - 2) :
    (GenerateNormalMap heightMap textureSize)[y * textureSize + x]? =
      some (remap05 (normalize3 (gradVec heightMap textureSize x y))) ∧
    sqNorm3 (normalize3 (gradVec heightMap textureSize x y)) = 1 := by
  have hts : 3 ≤ textureSize := by omega
  have hxlt : x < textureSize := by omega
  have hidx : y * textureSize + x < heightMap.length := by
    rw [hlen]; exact interior_index_lt textureSize x y hx1 hx2 hy2
  constructor
  · rw [GenerateNormalMap, List.getElem?_map, List.getElem?_range hidx]
    simp only [Option.map_some']
    rw [rowmajor_mod textureSize x y hxlt, rowmajor_div textureSize x y hxlt]
    rw [if_pos ⟨hx1, hx2, hy1, hy2⟩]
    rfl
  · exact normalize3_unit _ _

/-- Closed witness for `normalMap_interior_unit_normals` on a 3×3 all-zero heightmap. -/
theorem normalMap_interior_unit_normals_witness :
    ((List.replicate 9 0 : List ℕ).length = 3 * 3 ∧ 1 ≤ 1 ∧ 1 ≤ 3 - 2) ∧
    ((GenerateNormalMap (List.replicate 9 0) 3)[1 * 3 + 1]? =
      some (remap05 (normalize3 (gradVec (List.replicate 9 0) 3 1 1))) ∧
    sqNorm3 (normalize3 (gradVec (List.replicate 9 0) 3 1 1)) = 1) :=
  ⟨⟨by decide, by decide, by decide⟩,
    normalMap_interior_unit_normals (List.replicate 9 0) 3 1 1 (by decide)
      (by decide) (by decide) (by decide) (by decide)⟩

/-- C7: `GenerateNormalMap` returns a grid of the same size as its input in which
every border cell (outermost row and column) is left at its default-initialized
value `(0,0,0)`; only interior cells are written. -/
theorem normalMap_border_default (heightMap : List ℕ) (textureSize : ℕ)
    (hlen : heightMap.length = textureSize * textureSize) :
    (GenerateNormalMap heightMap textureSize).length = heightMap.length ∧
    ∀ x y : ℕ, x < textureSize → y < textureSize →
      (x = 0 ∨ x = textureSize - 1 ∨ y = 0 ∨ y = textureSize - 1) →
      (GenerateNormalMap heightMap textureSize)[y * textureSize + x]? =
        some ((0 : ℝ), (0 : ℝ), (0 : ℝ)) := by
  constructor
  · rw [GenerateNormalMap]
    simp
  · intro x y hx hy hborder
    have hidx : y * textureSize + x < heightMap.length := by
      rw [hlen]
      have h1 : y * textureSize ≤ (textureSize - 1) * textureSize :=
        Nat.mul_le_mul_right _ (by omega)
      have h2 : (textureSize - 1) * textureSize + textureSize = textureSize * textureSize := by
        have : textureSize - 1 + 1 = textureSize := by omega
        calc (textureSize - 1) * textureSize + textureSize
            = (textureSize - 1 + 1) * textureSize := by ring
          _ = textureSize * textureSize := by rw [this]
      omega
    rw [GenerateNormalMap, List.getElem?_map, List.getElem?_range hidx]
    simp only [Option.map_some']
    rw [rowmajor_mod textureSize x y hx, rowmajor_div textureSize x y hx]
    rw [if_neg (by omega)]

/-- Closed witness for `normalMap_border_default` on a 3×3 all-zero heightmap. -/
theorem normalMap_border_default_witness :
    ((List.replicate 9 0 : List ℕ).length = 3 * 3) ∧
    ((GenerateNormalMap (List.replicate 9 0) 3).length = (List.replicate 9 0 : List ℕ).length ∧
    ∀ x y : ℕ, x < 3 → y < 3 → (x = 0 ∨ x = 3 - 1 ∨ y = 0 ∨ y = 3 - 1) →
      (GenerateNormalMap (List.replicate 9 0) 3)[y * 3 + x]? =
        some ((0 : ℝ), (0 : ℝ), (0 : ℝ))) :=
  ⟨by decide, normalMap_border_default (List.replicate 9 0) 3 (by decide)⟩

/-! ## The sun animation state machine (`AnimateSun`)

Global constants from the source. Decimal float literals are embedded as the
rationals they denote. -/

def sunRadius : ℚ := 17 / 10
def sunDesiredSpeed : ℚ := 2 / 5
def idleTime : ℚ := 1
def maxExposure : ℚ := 3 / 4
def minExposure : ℚ := 1 / 20
def bloomFactor : ℚ := 5

def WHITE : ℚ × ℚ × ℚ := (1 * bloomFactor, 17/20 * bloomFactor, 11/20 * bloomFactor)
def ORANGE : ℚ × ℚ × ℚ := (1 * bloomFactor, 1/2 * bloomFactor, 1/20 * bloomFactor)

/-- `glm::mix(a, b, t) = a + t * (b - a)`. -/
def mix (a b t : ℚ) : ℚ := a + t * (b - a)

/-- Componentwise `glm::mix` on a vec3. -/
def mix3 (a b : ℚ × ℚ × ℚ) (t : ℚ) : ℚ × ℚ × ℚ :=
  (mix a.1 b.1 t, mix a.2.1 b.2.1 t, mix a.2.2 b.2.2 t)

/-- The mutable globals read and written by `AnimateSun`. -/
structure SunState where
  lightPos : ℚ × ℚ × ℚ
  lightDiffuse : ℚ × ℚ × ℚ
  exposure : ℚ
  sunAngle : ℚ
  sunVel : ℚ
  timer : ℚ
  bReverseSun : Bool
  bWaiting : Bool
deriving DecidableEq

/-- The transcendental library functions consumed by `AnimateSun`, abstracted as
rational-valued oracles (the code calls them on `float`s):
`cosF`/`sinF` model `cos`/`sin`; `easeF` models
`EaseInOutSine(x) = -(cos(pi*x) - 1)/2`, which is valued in `[0,1]`;
`angleF` models `glm::degrees(glm::acos(glm::dot(glm::normalize(p),
glm::normalize(vec3(1,0,1)))))`, which is valued in `[0,180]`. -/
structure TrigOps where
  cosF : ℚ → ℚ
  sinF : ℚ → ℚ
  easeF : ℚ → ℚ
  angleF : ℚ × ℚ × ℚ → ℚ

/-- Initial values of the globals at program start. -/
def initState : SunState where
  lightPos := (0, 1/10, 0)
  lightDiffuse := WHITE
  exposure := maxExposure
  sunAngle := 99999/100
  sunVel := 0
  timer := 0
  bReverseSun := false
  bWaiting := false

/-- The `bWaiting` branch: accumulate `timer += deltaTime` and leave the waiting
phase once `timer >= idleTime`, resetting the timer. -/
def sunWaitStep (deltaTime : ℚ) (s : SunState) : SunState :=
  let t := s.timer + deltaTime
  if idleTime ≤ t then { s with bWaiting := false, timer := 0 }
  else { s with timer := t }

/-- The in-motion branch: recompute `sunAngle` from the light direction, blend
velocity, color and exposure depending on whether the sun approaches a horizon
(`sunAngle < 89.9 && !bReverseSun`, or `sunAngle > 90.1 && bReverseSun`) or the
zenith, then project the position onto `x = z = sunRadius * -cos(sunVel)`,
`y = sunRadius * sin(sunVel)`. -/
def sunMoveStep (ops : TrigOps) (deltaTime : ℚ) (s : SunState) : SunState :=
  let ang := ops.angleF s.lightPos
  let dir : ℚ := if s.bReverseSun then -1 else 1
  let targetSpeed := sunDesiredSpeed * dir
  let s' :=
    if (ang < 899/10 ∧ s.bReverseSun = false) ∨ (901/10 < ang ∧ s.bReverseSun = true) then
      { s with sunAngle := ang,
               sunVel := s.sunVel + mix (deltaTime * sunDesiredSpeed * dir) 0
                 (ops.easeF deltaTime * 120),
               lightDiffuse := mix3 s.lightDiffuse ORANGE (ops.easeF deltaTime * 10),
               exposure := mix s.exposure minExposure (ops.easeF deltaTime * 10) }
    else
      { s with sunAngle := ang,
               sunVel := s.sunVel + mix (deltaTime * sunDesiredSpeed * dir) targetSpeed
                 (ops.easeF deltaTime * 3),
               lightDiffuse := mix3 s.lightDiffuse WHITE (ops.easeF deltaTime * 10),
               exposure := mix s.exposure maxExposure (ops.easeF deltaTime * 10) }
  { s' with lightPos := (sunRadius * -(ops.cosF s'.sunVel),
                         sunRadius * ops.sinF s'.sunVel,
                         sunRadius * -(ops.cosF s'.sunVel)) }

/-- The trailing horizon check: `sunAngle < 5 && !bReverseSun` enters the waiting
phase travelling back; `sunAngle > 175 && bReverseSun` enters it travelling
forward. -/
def horizonCheck (s : SunState) : SunState :=
  if s.sunAngle < 5 ∧ s.bReverseSun = false then
    { s with bWaiting := true, bReverseSun := true }
  else if 175 < s.sunAngle ∧ s.bReverseSun = true then
    { s with bWaiting := true, bReverseSun := false }
  else s

/-- One `AnimateSun(...)` call. `stationary` is the compile-time constant
`bIsSunStationary` (false in the shipped build, kept as a parameter so that all
three phases are covered). -/
def animateSun (ops : TrigOps) (stationary : Bool) (deltaTime : ℚ) (s : SunState) :
    SunState :=
  if stationary then { s with lightPos := (1, 3/4, 1) }
  else
    horizonCheck (if s.bWaiting then sunWaitStep deltaTime s else sunMoveStep ops deltaTime s)

/-- A sequence of frames: fold `AnimateSun` over the per-frame `deltaTime` values. -/
def sunRun (ops : TrigOps) (stationary : Bool) (deltaTimes : List ℚ) (s : SunState) :
    SunState :=
  deltaTimes.foldl (fun st dt => animateSun ops stationary dt st) s

/-! ### Basic step facts -/

theorem horizonCheck_sunAngle (s : SunState) : (horizonCheck s).sunAngle = s.sunAngle := by
  rw [horizonCheck]
  split <;> try rfl
  split <;> rfl

theorem horizonCheck_exposure (s : SunState) : (horizonCheck s).exposure = s.exposure := by
  rw [horizonCheck]
  split <;> try rfl
  split <;> rfl

theorem horizonCheck_lightPos (s : SunState) : (horizonCheck s).lightPos = s.lightPos := by
  rw [horizonCheck]
  split <;> try rfl
  split <;> rfl

theorem sunWaitStep_fields (deltaTime : ℚ) (s : SunState) :
    (sunWaitStep deltaTime s).sunAngle = s.sunAngle ∧
    (sunWaitStep deltaTime s).bReverseSun = s.bReverseSun ∧
    (sunWaitStep deltaTime s).exposure = s.exposure ∧
    (sunWaitStep deltaTime s).lightPos = s.lightPos := by
  rw [sunWaitStep]
  split <;> exact ⟨rfl, rfl, rfl, rfl⟩

theorem sunMoveStep_bReverseSun (ops : TrigOps) (deltaTime : ℚ) (s : SunState) :
    (sunMoveStep ops deltaTime s).bReverseSun = s.bReverseSun := by
  rw [sunMoveStep]
  split <;> rfl

theorem sunMoveStep_bWaiting (ops : TrigOps) (deltaTime : ℚ) (s : SunState) :
    (sunMoveStep ops deltaTime s).bWaiting = s.bWaiting := by
  rw [sunMoveStep]
  split <;> rfl

/-! ### C4: horizon detection -/

/-- C4: whenever an `AnimateSun` update runs with the light's angle (the value the
trailing horizon check reads, i.e. the angle recomputed during a moving update or
the stale angle during a waiting update) below 5° while the travel-direction flag
indicates travel toward that horizon, or above 175° while traveling toward the
other horizon, that same update sets the phase to Waiting and flips the
travel-direction flag. -/
theorem horizon_detection_flips_direction (ops : TrigOps) (deltaTime : ℚ) (s : SunState)
    (h : ((animateSun ops false deltaTime s).sunAngle < 5 ∧ s.bReverseSun = false) ∨
         (175 < (animateSun ops false deltaTime s).sunAngle ∧ s.bReverseSun = true)) :
    (animateSun ops false deltaTime s).bWaiting = true ∧
    (animateSun ops false deltaTime s).bReverseSun = !s.bReverseSun := by
  rw [animateSun] at h ⊢
  simp only [Bool.false_eq_true, if_false] at h ⊢
  set s1 := if s.bWaiting then sunWaitStep deltaTime s else sunMoveStep ops deltaTime s with hs1
  have hrev : s1.bReverseSun = s.bReverseSun := by
    rw [hs1]
    split
    · exact (sunWaitStep_fields deltaTime s).2.1
    · exact sunMoveStep_bReverseSun ops deltaTime s
  rw [horizonCheck_sunAngle] at h
  rw [horizonCheck]
  rcases h with ⟨hang, hflag⟩ | ⟨hang, hflag⟩
  · rw [if_pos ⟨hang, by rw [hrev, hflag]⟩, hflag]
    exact ⟨rfl, rfl⟩
  · rw [if_neg (by rw [hrev, hflag]; rintro ⟨h5, hcontra⟩; cases hcontra),
      if_pos ⟨hang, by rw [hrev, hflag]⟩, hflag]
    exact ⟨rfl, rfl⟩

/-- Closed witness for `horizon_detection_flips_direction`: an update that reads a
4° sun angle while traveling forward enters the waiting phase and reverses. -/
def witnessOpsC4 : TrigOps where
  cosF := fun _ => 1
  sinF := fun _ => 0
  easeF := fun _ => 0
  angleF := fun _ => 4

theorem horizon_detection_flips_direction_angle :
    (animateSun witnessOpsC4 false 0 initState).sunAngle < 5 := by
  norm_num [animateSun, sunMoveStep, horizonCheck, witnessOpsC4, initState, mix, mix3,
    sunDesiredSpeed, sunRadius, minExposure, maxExposure, WHITE, ORANGE, bloomFactor]

theorem horizon_detection_flips_direction_witness :
    (((animateSun witnessOpsC4 false 0 initState).sunAngle < 5 ∧
       initState.bReverseSun = false) ∨
     (175 < (animateSun witnessOpsC4 false 0 initState).sunAngle ∧
       initState.bReverseSun = true)) ∧
    ((animateSun witnessOpsC4 false 0 initState).bWaiting = true ∧
     (animateSun witnessOpsC4 false 0 initState).bReverseSun = !initState.bReverseSun) :=
  ⟨Or.inl ⟨horizon_detection_flips_direction_angle, rfl⟩,
    horizon_detection_flips_direction witnessOpsC4 0 initState
      (Or.inl ⟨horizon_detection_flips_direction_angle, rfl⟩)⟩

/-! ### C5: leaving the waiting phase -/

/-- Configurations of a waiting state that entered the waiting phase through the
horizon check (which always flips the direction flag before waiting begins): a
waiting state near the 0° horizon travels reversed, one near the 180° horizon
travels forward. Preserved by every update, true initially. -/
def WaitingInv (s : SunState) : Prop :=
  s.bWaiting = true →
    (s.sunAngle < 5 → s.bReverseSun = true) ∧ (175 < s.sunAngle → s.bReverseSun = false)

theorem waitingInv_init : WaitingInv initState := by
  intro h
  cases h

theorem horizonCheck_waitingInv (s : SunState) (h : WaitingInv s) :
    WaitingInv (horizonCheck s) := by
  rw [horizonCheck]
  split
  · rename_i hcond
    intro _
    refine ⟨fun _ => rfl, fun h175 => ?_⟩
    have h175' : (175 : ℚ) < s.sunAngle := h175
    exfalso
    linarith [hcond.1]
  · split
    · rename_i hcond
      intro _
      refine ⟨fun h5 => ?_, fun _ => rfl⟩
      have h5' : s.sunAngle < 5 := h5
      exfalso
      linarith [hcond.1]
    · intro hw
      exact h hw

theorem sunWaitStep_waitingInv (deltaTime : ℚ) (s : SunState) (h : WaitingInv s) :
    WaitingInv (sunWaitStep deltaTime s) := by
  rw [sunWaitStep]
  split
  · intro hw
    simp at hw
  · intro hw
    exact h hw

theorem sunMoveStep_waitingInv (ops : TrigOps) (deltaTime : ℚ) (s : SunState)
    (hnw : s.bWaiting = false) : WaitingInv (sunMoveStep ops deltaTime s) := by
  intro hw
  rw [sunMoveStep_bWaiting, hnw] at hw
  cases hw

theorem animateSun_waitingInv (ops : TrigOps) (stationary : Bool) (deltaTime : ℚ)
    (s : SunState) (h : WaitingInv s) :
    WaitingInv (animateSun ops stationary deltaTime s) := by
  rw [animateSun]
  split
  · intro hw
    exact h hw
  · apply horizonCheck_waitingInv
    split
    · exact sunWaitStep_waitingInv deltaTime s h
    · rename_i hmove
      exact sunMoveStep_waitingInv ops deltaTime s (by simpa using hmove)

/-- C5: if the controller is waiting (in a configuration the horizon check can
produce) and the accumulated waiting time reaches `idleTime` on an update, that
update returns the phase to Moving with the travel-direction flag untouched (it
was already flipped on entering the wait) and the wait timer reset to zero; while
the accumulated time stays below `idleTime`, the phase stays Waiting. -/
theorem waiting_phase_transition (ops : TrigOps) (deltaTime : ℚ) (s : SunState)
    (hw : s.bWaiting = true) (hinv : WaitingInv s) :
    (idleTime ≤ s.timer + deltaTime →
      (animateSun ops false deltaTime s).bWaiting = false ∧
      (animateSun ops false deltaTime s).timer = 0 ∧
      (animateSun ops false deltaTime s).bReverseSun = s.bReverseSun) ∧
    (s.timer + deltaTime < idleTime →
      (animateSun ops false deltaTime s).bWaiting = true) := by
  have hinv5 := (hinv hw).1
  have hinv175 := (hinv hw).2
  rw [animateSun]
  simp only [Bool.false_eq_true, if_false, hw, if_true]
  constructor
  · intro hdone
    have hstep : sunWaitStep deltaTime s = { s with bWaiting := false, timer := 0 } := by
      rw [sunWaitStep, if_pos hdone]
    rw [hstep, horizonCheck]
    by_cases h5 : s.sunAngle < 5
    · rw [if_neg (by
        rintro ⟨_, hrevf⟩
        have : s.bReverseSun = false := hrevf
        rw [hinv5 h5] at this
        cases this)]
      rw [if_neg (by
        rintro ⟨h175, _⟩
        have h175' : (175 : ℚ) < s.sunAngle := h175
        linarith [hinv5 h5])]
      exact ⟨rfl, rfl, rfl⟩
    · rw [if_neg (by rintro ⟨h5c, _⟩; exact h5 h5c)]
      by_cases h175 : 175 < s.sunAngle
      · rw [if_neg (by
          rintro ⟨_, hrevt⟩
          have : s.bReverseSun = true := hrevt
          rw [hinv175 h175] at this
          cases this)]
        exact ⟨rfl, rfl, rfl⟩
      · rw [if_neg (by rintro ⟨h175c, _⟩; exact h175 h175c)]
        exact ⟨rfl, rfl, rfl⟩
  · intro hnot
    have hstep : sunWaitStep deltaTime s = { s with timer := s.timer + deltaTime } := by
      rw [sunWaitStep, if_neg (by linarith)]
    rw [hstep, horizonCheck]
    split
    · rfl
    · split
      · rfl
      · exact hw

/-- A waiting state the horizon check can produce: at 4° with the direction flag
already flipped. -/
def waitStateC5 : SunState :=
  { initState with bWaiting := true, sunAngle := 4, bReverseSun := true, timer := 1/2 }

/-- Closed witness for `waiting_phase_transition`: `waitStateC5`, whose timer
expires on an update with `deltaTime = 3/4`. -/
theorem waiting_phase_transition_witness :
    (waitStateC5.bWaiting = true ∧ idleTime ≤ waitStateC5.timer + 3/4) ∧
    ((animateSun witnessOpsC4 false (3/4) waitStateC5).bWaiting = false ∧
     (animateSun witnessOpsC4 false (3/4) waitStateC5).timer = 0 ∧
     (animateSun witnessOpsC4 false (3/4) waitStateC5).bReverseSun =
       waitStateC5.bReverseSun) :=
  ⟨⟨rfl, by norm_num [idleTime, waitStateC5, initState]⟩,
    (waiting_phase_transition witnessOpsC4 (3/4) waitStateC5
      rfl
      (by intro _; exact ⟨fun _ => rfl, fun h => absurd h (by norm_num [waitStateC5])⟩)).1
      (by norm_num [idleTime, waitStateC5, initState])⟩

/-! ### C3: exposure bounds -/

theorem mix_mem_of_unit (lo hi a b t : ℚ) (ha1 : lo ≤ a) (ha2 : a ≤ hi)
    (hb1 : lo ≤ b) (hb2 : b ≤ hi) (ht0 : 0 ≤ t) (ht1 : t ≤ 1) :
    lo ≤ mix a b t ∧ mix a b t ≤ hi := by
  rw [mix]
  constructor
  · nlinarith [mul_nonneg ht0 (sub_nonneg.mpr hb1), mul_nonneg (sub_nonneg.mpr ht1)
      (sub_nonneg.mpr ha1)]
  · nlinarith [mul_nonneg ht0 (sub_nonneg.mpr (le_refl b)), mul_nonneg
      (sub_nonneg.mpr ht1) (sub_nonneg.mpr ha2), mul_nonneg ht0 (sub_nonneg.mpr hb1)]

theorem sunMoveStep_exposure (ops : TrigOps) (deltaTime : ℚ) (s : SunState) :
    (sunMoveStep ops deltaTime s).exposure =
      mix s.exposure minExposure (ops.easeF deltaTime * 10) ∨
    (sunMoveStep ops deltaTime s).exposure =
      mix s.exposure maxExposure (ops.easeF deltaTime * 10) := by
  rw [sunMoveStep]
  split
  · exact Or.inl rfl
  · exact Or.inr rfl

theorem animateSun_exposure_step (ops : TrigOps) (stationary : Bool) (deltaTime : ℚ)
    (s : SunState) (h0 : 0 ≤ ops.easeF deltaTime * 10) (h1 : ops.easeF deltaTime * 10 ≤ 1)
    (hs : minExposure ≤ s.exposure ∧ s.exposure ≤ maxExposure) :
    minExposure ≤ (animateSun ops stationary deltaTime s).exposure ∧
    (animateSun ops stationary deltaTime s).exposure ≤ maxExposure := by
  have hminmax : minExposure ≤ maxExposure := by norm_num [minExposure, maxExposure]
  rw [animateSun]
  split
  · exact hs
  · rw [horizonCheck_exposure]
    split
    · rw [(sunWaitStep_fields deltaTime s).2.2.1]
      exact hs
    · rcases sunMoveStep_exposure ops deltaTime s with he | he <;> rw [he]
      · exact mix_mem_of_unit minExposure maxExposure _ _ _ hs.1 hs.2 (le_refl _)
          hminmax h0 h1
      · exact mix_mem_of_unit minExposure maxExposure _ _ _ hs.1 hs.2 hminmax
          (le_refl _) h0 h1

theorem sunRun_exposure_bounded (ops : TrigOps) (stationary : Bool) :
    ∀ (deltaTimes : List ℚ) (s : SunState),
      (∀ dt ∈ deltaTimes, 0 ≤ ops.easeF dt * 10 ∧ ops.easeF dt * 10 ≤ 1) →
      minExposure ≤ s.exposure → s.exposure ≤ maxExposure →
      minExposure ≤ (sunRun ops stationary deltaTimes s).exposure ∧
      (sunRun ops stationary deltaTimes s).exposure ≤ maxExposure := by
  intro deltaTimes
  induction deltaTimes with
  | nil => intro s _ h1 h2; exact ⟨h1, h2⟩
  | cons dt rest ih =>
      intro s hd h1 h2
      have hdt := hd dt (List.mem_cons_self dt rest)
      have hstep := animateSun_exposure_step ops stationary dt s hdt.1 hdt.2 ⟨h1, h2⟩
      exact ih (animateSun ops stationary dt s)
        (fun d hdm => hd d (List.mem_cons_of_mem _ hdm)) hstep.1 hstep.2

/-- C3 (amended): starting from `exposure = maxExposure`, the exposure remains
within `[minExposure, maxExposure]` after every update of any frame sequence
PROVIDED each frame's easing-scaled blend factor `EaseInOutSine(deltaTime) * 10`
lies in `[0, 1]` (frame times of roughly a fifth of a second or less). The
unamended claim — any `deltaTime` sequence — fails, because `glm::mix` is not
clamped and a factor above 1 overshoots the target
(`exposure_bound_counterexample`). -/
theorem exposure_remains_bounded (ops : TrigOps) (stationary : Bool)
    (deltaTimes : List ℚ) (s : SunState)
    (hd : ∀ dt ∈ deltaTimes, 0 ≤ ops.easeF dt * 10 ∧ ops.easeF dt * 10 ≤ 1)
    (hs : s.exposure = maxExposure) :
    minExposure ≤ (sunRun ops stationary deltaTimes s).exposure ∧
    (sunRun ops stationary deltaTimes s).exposure ≤ maxExposure :=
  sunRun_exposure_bounded ops stationary deltaTimes s hd
    (by rw [hs]; norm_num [minExposure, maxExposure]) (le_of_eq hs)

/-- Closed witness for `exposure_remains_bounded`: one small-step frame from the
initial state (easing factor 0). -/
theorem exposure_remains_bounded_witness :
    (initState.exposure = maxExposure ∧
      (∀ dt ∈ [(1 : ℚ)/10], 0 ≤ witnessOpsC4.easeF dt * 10 ∧
        witnessOpsC4.easeF dt * 10 ≤ 1)) ∧
    (minExposure ≤ (sunRun witnessOpsC4 false [1/10] initState).exposure ∧
     (sunRun witnessOpsC4 false [1/10] initState).exposure ≤ maxExposure) :=
  ⟨⟨rfl, fun dt _ => ⟨by norm_num [witnessOpsC4], by norm_num [witnessOpsC4]⟩⟩,
    exposure_remains_bounded witnessOpsC4 false [1/10] initState
      (fun dt _ => ⟨by norm_num [witnessOpsC4], by norm_num [witnessOpsC4]⟩) rfl⟩

/-- Transcendental oracle for the exposure counterexample. Every value agrees
with the real library functions at a state the running program reaches: the sun
does cross below `89.9°` with the exposure still at `maxExposure` (a 4° reading),
and `EaseInOutSine(1) = -(cos(pi) - 1)/2 = 1` exactly, so a one-second frame
drives the blend factor to `10`. -/
def cexOpsExposure : TrigOps where
  cosF := fun _ => 1
  sinF := fun _ => 0
  easeF := fun _ => 1
  angleF := fun _ => 4

/-- C3 is false as stated: with an unrestricted `deltaTime` (here one second,
easing weight exactly 1, blend factor 10), a single update from an in-bounds
state drives the exposure to `-25/4`, far below `minExposure`. -/
theorem exposure_bound_counterexample :
    initState.exposure = maxExposure ∧
    (0 ≤ cexOpsExposure.easeF 1 ∧ cexOpsExposure.easeF 1 ≤ 1) ∧
    (sunRun cexOpsExposure false [1] initState).exposure < minExposure := by
  refine ⟨rfl, ⟨by norm_num [cexOpsExposure], by norm_num [cexOpsExposure]⟩, ?_⟩
  norm_num [sunRun, animateSun, sunMoveStep, horizonCheck, cexOpsExposure, initState,
    mix, mix3, sunDesiredSpeed, sunRadius, minExposure, maxExposure, WHITE, ORANGE,
    bloomFactor]

/-! ### C8 and C10: the shape of the sun's path -/

/-- Squared distance from the origin. -/
def dist2 (p : ℚ × ℚ × ℚ) : ℚ := p.1 ^ 2 + p.2.1 ^ 2 + p.2.2 ^ 2

theorem sunMoveStep_lightPos (ops : TrigOps) (deltaTime : ℚ) (s : SunState) :
    ∃ v : ℚ, (sunMoveStep ops deltaTime s).lightPos =
      (sunRadius * -(ops.cosF v), sunRadius * ops.sinF v, sunRadius * -(ops.cosF v)) := by
  rw [sunMoveStep]
  exact ⟨_, rfl⟩

/-- Transcendental oracle for the orbit counterexample: at the initial state the
real functions take exactly these values — `angle((0, 0.1, 0)) = 90°` since the
initial light direction is vertical, `EaseInOutSine(0) = 0`, and with
`deltaTime = 0` the velocity stays `0`, where `cos 0 = 1` and `sin 0 = 0`. -/
def cexOpsCircle : TrigOps where
  cosF := fun _ => 1
  sinF := fun _ => 0
  easeF := fun _ => 0
  angleF := fun _ => 90

/-- C8 is false as stated: the very first moving update (from the program's
initial state, with the oracle values the real library produces there) puts the
light at `(-1.7, 0, -1.7)`, whose distance from the origin is `1.7 * sqrt 2`,
not `sunRadius = 1.7`: the code writes `sunRadius * -cos(sunVel)` into BOTH the
x and z coordinates instead of splitting it between them. -/
theorem sun_radius_counterexample :
    initState.bWaiting = false ∧
    dist2 ((animateSun cexOpsCircle false 0 initState).lightPos) ≠ sunRadius ^ 2 := by
  refine ⟨rfl, ?_⟩
  norm_num [dist2, animateSun, sunMoveStep, horizonCheck, cexOpsCircle, initState,
    mix, mix3, sunDesiredSpeed, sunRadius, minExposure, maxExposure, WHITE, ORANGE,
    bloomFactor]

/-- C8 (amended): every Moving-phase update places the light on a fixed ellipse
traced diagonally above the terrain, not on a circle of radius `sunRadius` about
the origin: afterwards `lightPos.x = lightPos.z` and the PROJECTION
`(lightPos.x, lightPos.y)` has distance `sunRadius` from the origin (so the true
distance is `sunRadius * sqrt(1 + cos² sunVel)`, between `sunRadius` and
`sunRadius * sqrt 2`). The hypothesis is the Pythagorean identity of the
cosine/sine oracle, true of the real functions. -/
theorem sun_moving_orbit (ops : TrigOps) (deltaTime : ℚ) (s : SunState)
    (hpyth : ∀ t : ℚ, ops.cosF t ^ 2 + ops.sinF t ^ 2 = 1)
    (hnw : s.bWaiting = false) :
    ((animateSun ops false deltaTime s).lightPos).1 =
      ((animateSun ops false deltaTime s).lightPos).2.2 ∧
    ((animateSun ops false deltaTime s).lightPos).1 ^ 2 +
      ((animateSun ops false deltaTime s).lightPos).2.1 ^ 2 = sunRadius ^ 2 := by
  rw [animateSun]
  simp only [Bool.false_eq_true, if_false, hnw]
  rw [horizonCheck_lightPos]
  obtain ⟨v, hlp⟩ := sunMoveStep_lightPos ops deltaTime s
  rw [hlp]
  refine ⟨rfl, ?_⟩
  show (sunRadius * -(ops.cosF v)) ^ 2 + (sunRadius * ops.sinF v) ^ 2 = sunRadius ^ 2
  calc (sunRadius * -(ops.cosF v)) ^ 2 + (sunRadius * ops.sinF v) ^ 2
      = sunRadius ^ 2 * (ops.cosF v ^ 2 + ops.sinF v ^ 2) := by ring
    _ = sunRadius ^ 2 := by rw [hpyth v, mul_one]

/-- Pythagorean oracle for the orbit witness. -/
def pythOps : TrigOps where
  cosF := fun _ => 3/5
  sinF := fun _ => 4/5
  easeF := fun _ => 0
  angleF := fun _ => 90

/-- Closed witness for `sun_moving_orbit` at the initial state. -/
theorem sun_moving_orbit_witness :
    ((∀ t : ℚ, pythOps.cosF t ^ 2 + pythOps.sinF t ^ 2 = 1) ∧
      initState.bWaiting = false) ∧
    (((animateSun pythOps false 0 initState).lightPos).1 =
      ((animateSun pythOps false 0 initState).lightPos).2.2 ∧
     ((animateSun pythOps false 0 initState).lightPos).1 ^ 2 +
      ((animateSun pythOps false 0 initState).lightPos).2.1 ^ 2 = sunRadius ^ 2) :=
  ⟨⟨fun t => by norm_num [pythOps], rfl⟩,
    sun_moving_orbit pythOps 0 initState (fun t => by norm_num [pythOps]) rfl⟩

theorem animateSun_plane_step (ops : TrigOps) (stationary : Bool) (deltaTime : ℚ)
    (s : SunState) (h : s.lightPos.1 = s.lightPos.2.2) :
    (animateSun ops stationary deltaTime s).lightPos.1 =
      (animateSun ops stationary deltaTime s).lightPos.2.2 := by
  rw [animateSun]
  split
  · rfl
  · rw [horizonCheck_lightPos]
    split
    · rw [(sunWaitStep_fields deltaTime s).2.2.2]
      exact h
    · obtain ⟨v, hlp⟩ := sunMoveStep_lightPos ops deltaTime s
      rw [hlp]

/-- C10: after every `AnimateSun` update, in every phase (Stationary, Moving or
Waiting) and starting from the initial light position, the light position
satisfies `lightPos.x = lightPos.z`: the sun always lies in the diagonal
vertical plane `x = z` (its orbit is a path within that plane, not a circle of
constant distance from the origin). -/
theorem sun_diagonal_plane_invariant (ops : TrigOps) (stationary : Bool)
    (deltaTimes : List ℚ) :
    ((sunRun ops stationary deltaTimes initState).lightPos).1 =
      ((sunRun ops stationary deltaTimes initState).lightPos).2.2 := by
  suffices h : ∀ (dts : List ℚ) (s : SunState), s.lightPos.1 = s.lightPos.2.2 →
      (sunRun ops stationary dts s).lightPos.1 = (sunRun ops stationary dts s).lightPos.2.2 by
    exact h deltaTimes initState rfl
  intro dts
  induction dts with
  | nil => intro s hs; exact hs
  | cons dt rest ih =>
      intro s hs
      exact ih (animateSun ops stationary dt s)
        (animateSun_plane_step ops stationary dt s hs)

/-! ## The bloom blur loop (C9)

The render loop's blur stage:

    bool horizontal = true, first_iteration = true;
    for (unsigned int i = 0; i < amount; i++) {
      glBindFramebuffer(GL_FRAMEBUFFER, pingpongFBO[horizontal]);
      glBindTexture(GL_TEXTURE_2D,
        first_iteration ? downSampledTex : pingpongColorbuffers[!horizontal]);
      RenderPostProcessQuad();
      horizontal = !horizontal;
      if (first_iteration) first_iteration = false;
    }

and afterwards the composite pass binds `pingpongColorbuffers[!horizontal]` as
its bloom input. Texture names are modelled by `BlurSource`; the ping-pong index
is a `Bool` exactly as in the source. -/

inductive BlurSource where
  | downSampled : BlurSource
  | pingpong (i : Bool) : BlurSource
deriving DecidableEq

structure BlurState where
  horizontal : Bool
  firstIteration : Bool
deriving DecidableEq

def blurInit : BlurState := { horizontal := true, firstIteration := true }

/-- The texture bound for reading by one blur iteration. -/
def blurReadSource (st : BlurState) : BlurSource :=
  if st.firstIteration then .downSampled else .pingpong !st.horizontal

/-- The ping-pong framebuffer bound for writing by one blur iteration. -/
def blurWriteTarget (st : BlurState) : Bool := st.horizontal

def blurAdvance (st : BlurState) : BlurState :=
  { horizontal := !st.horizontal, firstIteration := false }

/-- The `(write framebuffer, read texture)` bindings of the loop's iterations,
in order. -/
def blurTrace : ℕ → BlurState → List (Bool × BlurSource)
  | 0, _ => []
  | n + 1, st => (blurWriteTarget st, blurReadSource st) :: blurTrace n (blurAdvance st)

/-- The loop state after running `amount` iterations. -/
def blurRun : ℕ → BlurState → BlurState
  | 0, st => st
  | n + 1, st => blurRun n (blurAdvance st)

def bloomBlurTrace (amount : ℕ) : List (Bool × BlurSource) := blurTrace amount blurInit

/-- The texture the composite/tonemap pass binds as its bloom input after a blur
loop of `amount` iterations: `pingpongColorbuffers[!horizontal]`. -/
def compositeBloomInput (amount : ℕ) : BlurSource :=
  .pingpong !(blurRun amount blurInit).horizontal

/-- C9 is false as stated: blur iteration counts 1 and 2 leave the loop with
opposite `horizontal` flags, so the composite pass binds `pingpongColorbuffers[1]`
after one iteration but `pingpongColorbuffers[0]` after two — the binding leaving
the blur stage depends on the count's parity. -/
theorem bloom_composite_input_counterexample :
    compositeBloomInput 1 = BlurSource.pingpong true ∧
    compositeBloomInput 2 = BlurSource.pingpong false ∧
    compositeBloomInput 1 ≠ compositeBloomInput 2 := by
  refine ⟨rfl, rfl, ?_⟩
  decide

theorem blurRun_horizontal (n : ℕ) (st : BlurState) :
    (blurRun n st).horizontal = (st.horizontal ^^ decide (n % 2 = 1)) := by
  induction n generalizing st with
  | zero => simp [blurRun]
  | succ n ih =>
      rw [blurRun, ih]
      rcases Nat.even_or_odd n with he | ho
      · obtain ⟨k, hk⟩ := he
        have h1 : n % 2 = 0 := by omega
        have h2 : (n + 1) % 2 = 1 := by omega
        simp [blurAdvance, h1, h2]
      · obtain ⟨k, hk⟩ := ho
        have h1 : n % 2 = 1 := by omega
        have h2 : (n + 1) % 2 = 0 := by omega
        simp [blurAdvance, h1, h2]

/-- C9 (amended): for any two blur iteration counts ≥ 1, the first iteration
reads the downsampled bright-pass target (and writes `pingpongFBO[1]`) in both
runs — the binding entering the blur stage is count-independent — but the target
bound as the composite's bloom input after the loop is the same in the two runs
only when the counts have the same parity (`pingpongColorbuffers[1]` after an
odd count, `pingpongColorbuffers[0]` after an even one). -/
theorem bloom_boundary_bindings (m n : ℕ) (hm : 1 ≤ m) (hn : 1 ≤ n)
    (hpar : m % 2 = n % 2) :
    (bloomBlurTrace m).head? = some (true, BlurSource.downSampled) ∧
    (bloomBlurTrace n).head? = some (true, BlurSource.downSampled) ∧
    compositeBloomInput m = compositeBloomInput n := by
  refine ⟨?_, ?_, ?_⟩
  · obtain ⟨k, rfl⟩ : ∃ k, m = k + 1 := ⟨m - 1, by omega⟩
    rfl
  · obtain ⟨k, rfl⟩ : ∃ k, n = k + 1 := ⟨n - 1, by omega⟩
    rfl
  · rw [compositeBloomInput, compositeBloomInput, blurRun_horizontal,
      blurRun_horizontal, hpar]

/-- Closed witness for `bloom_boundary_bindings` at counts 1 and 3. -/
theorem bloom_boundary_bindings_witness :
    (1 ≤ 1 ∧ 1 ≤ 3 ∧ 1 % 2 = 3 % 2) ∧
    ((bloomBlurTrace 1).head? = some (true, BlurSource.downSampled) ∧
     (bloomBlurTrace 3).head? = some (true, BlurSource.downSampled) ∧
     compositeBloomInput 1 = compositeBloomInput 3) :=
  ⟨⟨by decide, by decide, by decide⟩,
    bloom_boundary_bindings 1 3 (by decide) (by decide) (by decide)⟩

end TerrainDemo
